import Mathlib

/-!
Verification of the Phoenix order-packet schema, quantity algebra and
instruction-dispatch fragment, shallowly embedded from the Rust sources
(`src/quantities.rs`, `src/state/order_schema/order_packet.rs`, `src/lib.rs`).

Machine integers are modelled as `Nat` carrying an explicit upper bound,
with wrapping (release-mode) semantics written as reduction modulo `2 ^ 64`.
-/

/-- A 64-bit unsigned machine integer: a natural number below `2 ^ 64`. -/
structure U64 where
  val : Nat
  isLt : val < 2 ^ 64

/-- A 128-bit unsigned machine integer: a natural number below `2 ^ 128`. -/
structure U128 where
  val : Nat
  isLt : val < 2 ^ 128

instance : DecidableEq U64 := fun a b =>
  if h : a.val = b.val then .isTrue (by cases a; cases b; simp only at h; subst h; rfl)
  else .isFalse (fun hab => h (congrArg U64.val hab))

instance : DecidableEq U128 := fun a b =>
  if h : a.val = b.val then .isTrue (by cases a; cases b; simp only at h; subst h; rfl)
  else .isFalse (fun hab => h (congrArg U128.val hab))

/-- `u64::MAX`. -/
def U64.MAX : U64 := ⟨2 ^ 64 - 1, by norm_num⟩

/-- The unit tags of the quantity wrapper types declared in `quantities.rs`
(`basic_u64!` / `basic_u64_struct!` instantiations). -/
inductive UnitTag where
  | quoteLots
  | baseLots
  | ticks
  | quoteAtoms
  | baseAtoms
  | quoteUnits
  | baseUnits
  | quoteAtomsPerQuoteLot
  | baseAtomsPerBaseLot
  | baseLotsPerBaseUnit
  | quoteLotsPerQuoteUnit
  | quoteAtomsPerQuoteUnit
  | baseAtomsPerBaseUnit
  | quoteAtomsPerBaseUnitPerTick
  | quoteLotsPerBaseUnitPerTick
  | adjustedQuoteLots
  | quoteLotsPerBaseUnit
deriving DecidableEq

/-- A quantity wrapper: `pub struct $type_name { inner: u64 }` with a phantom
unit tag distinguishing the instantiations of the `basic_u64!` macro. -/
structure Quantity (u : UnitTag) where
  inner : U64

instance {u : UnitTag} : DecidableEq (Quantity u) := fun a b =>
  if h : a.inner = b.inner then .isTrue (by cases a; cases b; simp only at h; subst h; rfl)
  else .isFalse (fun hab => h (congrArg Quantity.inner hab))

abbrev QuoteLots := Quantity .quoteLots
abbrev BaseLots := Quantity .baseLots
abbrev Ticks := Quantity .ticks

namespace Quantity

/-- `fn new(value: u64) -> Self` (`WrapperU64::new`); the `u64` argument is
modelled as a `Nat` reduced modulo `2 ^ 64`. -/
def new {u : UnitTag} (value : Nat) : Quantity u :=
  ⟨⟨value % 2 ^ 64, Nat.mod_lt _ (by norm_num)⟩⟩

/-- `fn as_u64(&self) -> u64`. -/
def as_u64 {u : UnitTag} (a : Quantity u) : Nat := a.inner.val

/-- `pub const ZERO: Self = { inner: 0 }`. -/
def ZERO {u : UnitTag} : Quantity u := ⟨⟨0, by norm_num⟩⟩

/-- `pub const ONE: Self = { inner: 1 }`. -/
def ONE {u : UnitTag} : Quantity u := ⟨⟨1, by norm_num⟩⟩

/-- `pub const MAX: Self = { inner: u64::MAX }`. -/
def MAX {u : UnitTag} : Quantity u := ⟨U64.MAX⟩

/-- `pub const MIN: Self = { inner: u64::MIN }`. -/
def MIN {u : UnitTag} : Quantity u := ⟨⟨0, by norm_num⟩⟩

/-- `impl Add`: `self.inner + other.inner` on `u64`, wrapping on overflow
(release-mode semantics, as the spec's overflow note requires). -/
def add {u : UnitTag} (a b : Quantity u) : Quantity u :=
  ⟨⟨(a.inner.val + b.inner.val) % 2 ^ 64, Nat.mod_lt _ (by norm_num)⟩⟩

/-- `impl Sub`: `self.inner - other.inner` on `u64`, wrapping on underflow. -/
def sub {u : UnitTag} (a b : Quantity u) : Quantity u :=
  ⟨⟨(a.inner.val + 2 ^ 64 - b.inner.val) % 2 ^ 64, Nat.mod_lt _ (by norm_num)⟩⟩

/-- `impl Mul` (same unit): `self.inner * other.inner` on `u64`, wrapping. -/
def mul {u : UnitTag} (a b : Quantity u) : Quantity u :=
  ⟨⟨(a.inner.val * b.inner.val) % 2 ^ 64, Nat.mod_lt _ (by norm_num)⟩⟩

/-- `pub fn saturating_sub(self, other: Self) -> Self`
(`self.inner.saturating_sub(other.inner)`); `Nat` subtraction is exactly the
truncated difference. -/
def saturating_sub {u : UnitTag} (a b : Quantity u) : Quantity u :=
  ⟨⟨a.inner.val - b.inner.val, Nat.lt_of_le_of_lt (Nat.sub_le _ _) a.inner.isLt⟩⟩

/-- Cross-unit multiplication body generated by `allow_multiply!`:
`$type_result::new(self.inner * other.inner)` on `u64`, wrapping. -/
def crossMul {u v : UnitTag} (w : UnitTag) (a : Quantity u) (b : Quantity v) : Quantity w :=
  ⟨⟨(a.inner.val * b.inner.val) % 2 ^ 64, Nat.mod_lt _ (by norm_num)⟩⟩

end Quantity

/-- The multiplication table enumerated by the `allow_multiply!` invocations in
`quantities.rs` (each invocation yields `Mul` in both argument orders). -/
inductive AllowMultiply : UnitTag → UnitTag → UnitTag → Prop where
  | baseUnits_baseLotsPerBaseUnit :
      AllowMultiply .baseUnits .baseLotsPerBaseUnit .baseLots
  | quoteUnits_quoteLotsPerQuoteUnit :
      AllowMultiply .quoteUnits .quoteLotsPerQuoteUnit .quoteLots
  | quoteLots_quoteAtomsPerQuoteLot :
      AllowMultiply .quoteLots .quoteAtomsPerQuoteLot .quoteAtoms
  | baseLots_baseAtomsPerBaseLot :
      AllowMultiply .baseLots .baseAtomsPerBaseLot .baseAtoms
  | baseAtomsPerBaseLot_baseLotsPerBaseUnit :
      AllowMultiply .baseAtomsPerBaseLot .baseLotsPerBaseUnit .baseAtomsPerBaseUnit
  | quoteAtomsPerQuoteLot_quoteLotsPerQuoteUnit :
      AllowMultiply .quoteAtomsPerQuoteLot .quoteLotsPerQuoteUnit .quoteAtomsPerQuoteUnit
  | quoteLotsPerBaseUnitPerTick_quoteAtomsPerQuoteLot :
      AllowMultiply .quoteLotsPerBaseUnitPerTick .quoteAtomsPerQuoteLot
        .quoteAtomsPerBaseUnitPerTick
  | quoteLotsPerBaseUnitPerTick_ticks :
      AllowMultiply .quoteLotsPerBaseUnitPerTick .ticks .quoteLotsPerBaseUnit
  | quoteLots_baseLotsPerBaseUnit :
      AllowMultiply .quoteLots .baseLotsPerBaseUnit .adjustedQuoteLots
  | quoteLotsPerBaseUnit_baseLots :
      AllowMultiply .quoteLotsPerBaseUnit .baseLots .adjustedQuoteLots
  | symm {u v w : UnitTag} : AllowMultiply u v w → AllowMultiply v u w

/-- `pub enum Side { Bid, Ask }`.
Modelled from the spec: `Side` is declared in `src/state` (not under `src/`);
§3 gives the closed sum `{Bid, Ask}`, wire tags in declaration order. -/
inductive Side where
  | Bid
  | Ask
deriving DecidableEq

/-- `pub enum SelfTradeBehavior { Abort, CancelProvide, DecrementTake }`.
Modelled from the spec: `SelfTradeBehavior` is declared in `src/state` (not
under `src/`); §4.4.4 and §9 give the closed sum with the three variants,
wire tags assigned in declaration order. -/
inductive SelfTradeBehavior where
  | Abort
  | CancelProvide
  | DecrementTake
deriving DecidableEq

/-- `pub enum OrderPacket` from `order_packet.rs`, fields in declaration
order. -/
inductive OrderPacket where
  | PostOnly
      (side : Side)
      (price_in_ticks : Ticks)
      (num_base_lots : BaseLots)
      (client_order_id : U128)
      (reject_post_only : Bool)
      (use_only_deposited_funds : Bool)
      (last_valid_slot : Option U64)
      (last_valid_unix_timestamp_in_seconds : Option U64)
      (fail_silently_on_insufficient_funds : Bool)
  | Limit
      (side : Side)
      (price_in_ticks : Ticks)
      (num_base_lots : BaseLots)
      (self_trade_behavior : SelfTradeBehavior)
      (match_limit : Option U64)
      (client_order_id : U128)
      (use_only_deposited_funds : Bool)
      (last_valid_slot : Option U64)
      (last_valid_unix_timestamp_in_seconds : Option U64)
      (fail_silently_on_insufficient_funds : Bool)
  | ImmediateOrCancel
      (side : Side)
      (price_in_ticks : Option Ticks)
      (num_base_lots : BaseLots)
      (num_quote_lots : QuoteLots)
      (min_base_lots_to_fill : BaseLots)
      (min_quote_lots_to_fill : QuoteLots)
      (self_trade_behavior : SelfTradeBehavior)
      (match_limit : Option U64)
      (client_order_id : U128)
      (use_only_deposited_funds : Bool)
      (last_valid_slot : Option U64)
      (last_valid_unix_timestamp_in_seconds : Option U64)
deriving DecidableEq

namespace OrderPacket

/-- `fn is_ioc(&self) -> bool`. -/
def is_ioc : OrderPacket → Bool
  | .ImmediateOrCancel .. => true
  | _ => false

/-- `fn is_fok(&self) -> bool`. -/
def is_fok : OrderPacket → Bool
  | .ImmediateOrCancel _ _ num_base_lots num_quote_lots min_base_lots_to_fill
      min_quote_lots_to_fill _ _ _ _ _ _ =>
      (decide (num_base_lots.inner.val > 0) && decide (num_base_lots = min_base_lots_to_fill))
        || (decide (num_quote_lots.inner.val > 0)
              && decide (num_quote_lots = min_quote_lots_to_fill))
  | _ => false

/-- `fn is_post_only(&self) -> bool`. -/
def is_post_only : OrderPacket → Bool
  | .PostOnly .. => true
  | _ => false

/-- `fn is_take_only(&self) -> bool` (trait default method). -/
def is_take_only (p : OrderPacket) : Bool :=
  p.is_ioc || p.is_fok

/-- `fn no_deposit_or_withdrawal(&self) -> bool`. -/
def no_deposit_or_withdrawal : OrderPacket → Bool
  | .PostOnly _ _ _ _ _ use_only_deposited_funds _ _ _ => use_only_deposited_funds
  | .Limit _ _ _ _ _ _ use_only_deposited_funds _ _ _ => use_only_deposited_funds
  | .ImmediateOrCancel _ _ _ _ _ _ _ _ _ use_only_deposited_funds _ _ =>
      use_only_deposited_funds

/-- `pub fn side(&self) -> Side`. -/
def side : OrderPacket → Side
  | .PostOnly s _ _ _ _ _ _ _ _ => s
  | .Limit s _ _ _ _ _ _ _ _ _ => s
  | .ImmediateOrCancel s _ _ _ _ _ _ _ _ _ _ _ => s

/-- `pub fn fail_silently_on_insufficient_funds(&self) -> bool`. -/
def fail_silently_on_insufficient_funds : OrderPacket → Bool
  | .PostOnly _ _ _ _ _ _ _ _ fs => fs
  | .Limit _ _ _ _ _ _ _ _ _ fs => fs
  | .ImmediateOrCancel .. => false

/-- `pub fn num_base_lots(&self) -> BaseLots`. -/
def num_base_lots : OrderPacket → BaseLots
  | .PostOnly _ _ n _ _ _ _ _ _ => n
  | .Limit _ _ n _ _ _ _ _ _ _ => n
  | .ImmediateOrCancel _ _ n _ _ _ _ _ _ _ _ _ => n

/-- `pub fn num_quote_lots(&self) -> QuoteLots`. -/
def num_quote_lots : OrderPacket → QuoteLots
  | .PostOnly .. => Quantity.ZERO
  | .Limit .. => Quantity.ZERO
  | .ImmediateOrCancel _ _ _ n _ _ _ _ _ _ _ _ => n

/-- `pub fn base_lot_budget(&self) -> BaseLots`. -/
def base_lot_budget (p : OrderPacket) : BaseLots :=
  let base_lots := p.num_base_lots
  if base_lots = Quantity.ZERO then Quantity.MAX else base_lots

/-- `pub fn quote_lot_budget(&self) -> Option<QuoteLots>`. -/
def quote_lot_budget (p : OrderPacket) : Option QuoteLots :=
  let quote_lots := p.num_quote_lots
  if quote_lots = Quantity.ZERO then none else some quote_lots

/-- `pub fn match_limit(&self) -> u64`. -/
def match_limit : OrderPacket → Nat
  | .PostOnly .. => 2 ^ 64 - 1
  | .Limit _ _ _ _ ml _ _ _ _ _ => (ml.map U64.val).getD (2 ^ 64 - 1)
  | .ImmediateOrCancel _ _ _ _ _ _ _ ml _ _ _ _ => (ml.map U64.val).getD (2 ^ 64 - 1)

/-- `pub fn self_trade_behavior(&self) -> SelfTradeBehavior`; the `panic!` on
the `PostOnly` arm is modelled as `none`. -/
def self_trade_behavior : OrderPacket → Option SelfTradeBehavior
  | .PostOnly .. => none
  | .Limit _ _ _ stb _ _ _ _ _ _ => some stb
  | .ImmediateOrCancel _ _ _ _ _ _ stb _ _ _ _ _ => some stb

/-- `pub fn get_price_in_ticks(&self) -> Ticks`. -/
def get_price_in_ticks : OrderPacket → Ticks
  | .PostOnly _ price _ _ _ _ _ _ _ => price
  | .Limit _ price _ _ _ _ _ _ _ _ => price
  | p@(.ImmediateOrCancel _ price _ _ _ _ _ _ _ _ _ _) =>
      price.getD (match p.side with
        | .Bid => Quantity.MAX
        | .Ask => Quantity.MIN)

/-- `pub fn get_last_valid_slot(&self) -> Option<u64>`. -/
def get_last_valid_slot : OrderPacket → Option U64
  | .PostOnly _ _ _ _ _ _ lvs _ _ => lvs
  | .Limit _ _ _ _ _ _ _ lvs _ _ => lvs
  | .ImmediateOrCancel _ _ _ _ _ _ _ _ _ _ lvs _ => lvs

/-- `pub fn get_last_valid_unix_timestamp_in_seconds(&self) -> Option<u64>`. -/
def get_last_valid_unix_timestamp_in_seconds : OrderPacket → Option U64
  | .PostOnly _ _ _ _ _ _ _ lvt _ => lvt
  | .Limit _ _ _ _ _ _ _ _ lvt _ => lvt
  | .ImmediateOrCancel _ _ _ _ _ _ _ _ _ _ _ lvt => lvt

/-- `pub fn is_expired(&self, current_slot: u64, current_unix_timestamp_in_seconds: u64) -> bool`:
two sequential early-return checks, written as a disjunction. -/
def is_expired (p : OrderPacket) (current_slot current_unix_timestamp_in_seconds : U64) :
    Bool :=
  (match p.get_last_valid_slot with
    | some last_valid_slot => decide (current_slot.val > last_valid_slot.val)
    | none => false)
  || (match p.get_last_valid_unix_timestamp_in_seconds with
    | some last_valid_ts => decide (current_unix_timestamp_in_seconds.val > last_valid_ts.val)
    | none => false)

end OrderPacket

/-!
## Borsh wire model

`OrderPacket` derives `BorshSerialize`/`BorshDeserialize`.  Borsh encodes an
enum as a one-byte variant index (declaration order) followed by the fields in
declaration order; `u64`/`u128` as 8/16 little-endian bytes; `bool` as one byte
`0`/`1` (any other byte is a deserialization error); `Option<T>` as a tag byte
`0`/`1` followed by the payload when present (any other tag errors); and the
`#[repr(transparent)]` quantity wrappers as their inner `u64`.
`try_from_slice` fails unless the whole input is consumed.
Bytes are modelled as `Nat` list elements.
-/

/-- `n` little-endian base-256 digits of `v`. -/
def natToLE : Nat → Nat → List Nat
  | 0, _ => []
  | n + 1, v => (v % 256) :: natToLE n (v / 256)

/-- The value of a little-endian byte list. -/
def leVal : List Nat → Nat
  | [] => 0
  | b :: l => b + 256 * leVal l

/-- Borsh serialization of a `u64`: 8 little-endian bytes. -/
def encU64 (v : U64) : List Nat := natToLE 8 v.val

/-- Borsh serialization of a `u128`: 16 little-endian bytes. -/
def encU128 (v : U128) : List Nat := natToLE 16 v.val

/-- Borsh serialization of a `bool`. -/
def encBool (b : Bool) : List Nat := [if b then 1 else 0]

/-- Borsh serialization of an `Option`. -/
def encOption {α : Type} (enc : α → List Nat) : Option α → List Nat
  | none => [0]
  | some x => 1 :: enc x

/-- Borsh serialization of a `#[repr(transparent)]` quantity wrapper. -/
def encQty {u : UnitTag} (q : Quantity u) : List Nat := encU64 q.inner

/-- Borsh serialization of `Side` (variant index). -/
def encSide : Side → List Nat
  | .Bid => [0]
  | .Ask => [1]

/-- Borsh serialization of `SelfTradeBehavior` (variant index). -/
def encStb : SelfTradeBehavior → List Nat
  | .Abort => [0]
  | .CancelProvide => [1]
  | .DecrementTake => [2]

/-- Borsh serialization of `OrderPacket`: variant index byte, then the fields
in declaration order. -/
def encodeOrderPacket : OrderPacket → List Nat
  | .PostOnly s price nbl cid rpo uodf lvs lvt fs =>
      0 :: (encSide s ++ encQty price ++ encQty nbl ++ encU128 cid ++ encBool rpo
        ++ encBool uodf ++ encOption encU64 lvs ++ encOption encU64 lvt ++ encBool fs)
  | .Limit s price nbl stb ml cid uodf lvs lvt fs =>
      1 :: (encSide s ++ encQty price ++ encQty nbl ++ encStb stb ++ encOption encU64 ml
        ++ encU128 cid ++ encBool uodf ++ encOption encU64 lvs ++ encOption encU64 lvt
        ++ encBool fs)
  | .ImmediateOrCancel s price nbl nql mbf mqf stb ml cid uodf lvs lvt =>
      2 :: (encSide s ++ encOption encQty price ++ encQty nbl ++ encQty nql ++ encQty mbf
        ++ encQty mqf ++ encStb stb ++ encOption encU64 ml ++ encU128 cid ++ encBool uodf
        ++ encOption encU64 lvs ++ encOption encU64 lvt)

/-- A deserializer: consumes some bytes from the front, or fails. -/
abbrev Reader (α : Type) : Type := List Nat → Option (α × List Nat)

/-- Sequencing of deserializers. -/
def pBind {α β : Type} (rd : Reader α) (f : α → Reader β) : Reader β := fun bs =>
  match rd bs with
  | none => none
  | some (a, rest) => f a rest

/-- A deserializer that consumes nothing. -/
def pPure {α : Type} (a : α) : Reader α := fun bs => some (a, bs)

/-- A failing deserializer (invalid enum tag). -/
def pFail {α : Type} : Reader α := fun _ => none

/-- Read one byte. -/
def readByte : Reader Nat
  | [] => none
  | b :: rest => some (b, rest)

/-- Read `n` raw bytes. -/
def readBytes : Nat → Reader (List Nat)
  | 0, bs => some ([], bs)
  | _ + 1, [] => none
  | n + 1, b :: bs =>
      match readBytes n bs with
      | none => none
      | some (l, rest) => some (b :: l, rest)

/-- Borsh deserialization of a `u64` (8 little-endian bytes). -/
def readU64 : Reader U64 := fun bs =>
  match readBytes 8 bs with
  | none => none
  | some (l, rest) => some (⟨leVal l % 2 ^ 64, Nat.mod_lt _ (by norm_num)⟩, rest)

/-- Borsh deserialization of a `u128` (16 little-endian bytes). -/
def readU128 : Reader U128 := fun bs =>
  match readBytes 16 bs with
  | none => none
  | some (l, rest) => some (⟨leVal l % 2 ^ 128, Nat.mod_lt _ (by norm_num)⟩, rest)

/-- Borsh deserialization of a `bool`: strict, only `0`/`1` accepted. -/
def readBool : Reader Bool
  | 0 :: rest => some (false, rest)
  | 1 :: rest => some (true, rest)
  | _ => none

/-- Borsh deserialization of an `Option`: strict tag byte `0`/`1`. -/
def readOption {α : Type} (rd : Reader α) : Reader (Option α)
  | 0 :: rest => some (none, rest)
  | 1 :: rest =>
      (match rd rest with
        | none => none
        | some (a, rest') => some (some a, rest'))
  | _ => none

/-- Borsh deserialization of a quantity wrapper (its inner `u64`). -/
def readQty (u : UnitTag) : Reader (Quantity u) := fun bs =>
  match readU64 bs with
  | none => none
  | some (v, rest) => some (⟨v⟩, rest)

/-- Borsh deserialization of `Side`: strict variant index. -/
def readSide : Reader Side
  | 0 :: rest => some (.Bid, rest)
  | 1 :: rest => some (.Ask, rest)
  | _ => none

/-- Borsh deserialization of `SelfTradeBehavior`: strict variant index. -/
def readStb : Reader SelfTradeBehavior
  | 0 :: rest => some (.Abort, rest)
  | 1 :: rest => some (.CancelProvide, rest)
  | 2 :: rest => some (.DecrementTake, rest)
  | _ => none

/-- Field deserialization of the `PostOnly` variant. -/
def parsePostOnly : Reader OrderPacket :=
  pBind readSide fun s =>
  pBind (readQty .ticks) fun price =>
  pBind (readQty .baseLots) fun nbl =>
  pBind readU128 fun cid =>
  pBind readBool fun rpo =>
  pBind readBool fun uodf =>
  pBind (readOption readU64) fun lvs =>
  pBind (readOption readU64) fun lvt =>
  pBind readBool fun fs =>
  pPure (.PostOnly s price nbl cid rpo uodf lvs lvt fs)

/-- Field deserialization of the `Limit` variant. -/
def parseLimit : Reader OrderPacket :=
  pBind readSide fun s =>
  pBind (readQty .ticks) fun price =>
  pBind (readQty .baseLots) fun nbl =>
  pBind readStb fun stb =>
  pBind (readOption readU64) fun ml =>
  pBind readU128 fun cid =>
  pBind readBool fun uodf =>
  pBind (readOption readU64) fun lvs =>
  pBind (readOption readU64) fun lvt =>
  pBind readBool fun fs =>
  pPure (.Limit s price nbl stb ml cid uodf lvs lvt fs)

/-- Field deserialization of the `ImmediateOrCancel` variant. -/
def parseIoc : Reader OrderPacket :=
  pBind readSide fun s =>
  pBind (readOption (readQty .ticks)) fun price =>
  pBind (readQty .baseLots) fun nbl =>
  pBind (readQty .quoteLots) fun nql =>
  pBind (readQty .baseLots) fun mbf =>
  pBind (readQty .quoteLots) fun mqf =>
  pBind readStb fun stb =>
  pBind (readOption readU64) fun ml =>
  pBind readU128 fun cid =>
  pBind readBool fun uodf =>
  pBind (readOption readU64) fun lvs =>
  pBind (readOption readU64) fun lvt =>
  pPure (.ImmediateOrCancel s price nbl nql mbf mqf stb ml cid uodf lvs lvt)

/-- Borsh deserialization of `OrderPacket`: variant index byte, then fields. -/
def parseOrderPacket : Reader OrderPacket :=
  pBind readByte fun tag =>
  match tag with
  | 0 => parsePostOnly
  | 1 => parseLimit
  | 2 => parseIoc
  | _ => pFail

/-- `OrderPacket::try_from_slice`: deserialize and require that the whole
input is consumed. -/
def try_from_slice (bytes : List Nat) : Option OrderPacket :=
  match parseOrderPacket bytes with
  | some (p, []) => some p
  | _ => none

/-- `pub fn decode_order_packet(bytes: &[u8]) -> Option<OrderPacket>`: try the
raw input, then pad with three zero bytes (one per trailing optional field)
and retry, popping one byte between attempts — a faithful unrolling of the
`for _ in 0..additional_fields.len()` loop. -/
def decode_order_packet (bytes : List Nat) : Option OrderPacket :=
  match try_from_slice bytes with
  | some order_packet => some order_packet
  | none =>
      match try_from_slice (bytes ++ [0, 0, 0]) with
      | some order_packet => some order_packet
      | none =>
          match try_from_slice (bytes ++ [0, 0]) with
          | some order_packet => some order_packet
          | none =>
              match try_from_slice (bytes ++ [0]) with
              | some order_packet => some order_packet
              | none => none

/-- The number of trailing optional-region fields of `p` that are omitted
contiguously from the back: for `PostOnly`/`Limit` the region is
`last_valid_slot`, `last_valid_unix_timestamp_in_seconds`,
`fail_silently_on_insufficient_funds` (each omitted field one zero byte);
for `ImmediateOrCancel` only the two timestamps. -/
def optCount (lvs lvt : Option U64) (fs : Bool) : Nat :=
  match fs, lvt, lvs with
  | true, _, _ => 0
  | false, some _, _ => 1
  | false, none, some _ => 2
  | false, none, none => 3

def iocOptCount (lvs lvt : Option U64) : Nat :=
  match lvt, lvs with
  | some _, _ => 0
  | none, some _ => 1
  | none, none => 2

def omittable : OrderPacket → Nat
  | .PostOnly _ _ _ _ _ _ lvs lvt fs => optCount lvs lvt fs
  | .Limit _ _ _ _ _ _ _ lvs lvt fs => optCount lvs lvt fs
  | .ImmediateOrCancel _ _ _ _ _ _ _ _ _ _ lvs lvt => iocOptCount lvs lvt

/-- The optional region of a `PostOnly`/`Limit` encoding with the omitted
trailing fields dropped. -/
def optRegionCore (lvs lvt : Option U64) (fs : Bool) : List Nat :=
  match fs, lvt, lvs with
  | true, _, _ => encOption encU64 lvs ++ encOption encU64 lvt ++ encBool true
  | false, some t, _ => encOption encU64 lvs ++ encOption encU64 (some t)
  | false, none, some sl => encOption encU64 (some sl)
  | false, none, none => []

/-- The optional region of an `ImmediateOrCancel` encoding with the omitted
trailing fields dropped. -/
def iocOptCore (lvs lvt : Option U64) : List Nat :=
  match lvt, lvs with
  | some t, _ => encOption encU64 lvs ++ encOption encU64 (some t)
  | none, some sl => encOption encU64 (some sl)
  | none, none => []

/-- The encoding of `p` with its omitted-able trailing zero bytes dropped. -/
def encodeCore : OrderPacket → List Nat
  | .PostOnly s price nbl cid rpo uodf lvs lvt fs =>
      0 :: (encSide s ++ encQty price ++ encQty nbl ++ encU128 cid ++ encBool rpo
        ++ encBool uodf ++ optRegionCore lvs lvt fs)
  | .Limit s price nbl stb ml cid uodf lvs lvt fs =>
      1 :: (encSide s ++ encQty price ++ encQty nbl ++ encStb stb ++ encOption encU64 ml
        ++ encU128 cid ++ encBool uodf ++ optRegionCore lvs lvt fs)
  | .ImmediateOrCancel s price nbl nql mbf mqf stb ml cid uodf lvs lvt =>
      2 :: (encSide s ++ encOption encQty price ++ encQty nbl ++ encQty nql ++ encQty mbf
        ++ encQty mqf ++ encStb stb ++ encOption encU64 ml ++ encU128 cid ++ encBool uodf
        ++ iocOptCore lvs lvt)

/-- A deserializer reads a determined byte count: extending the input past the
unconsumed remainder cannot change the parsed value. -/
def ExtendOk {α : Type} (rd : Reader α) : Prop :=
  ∀ bs ext a rest, rd bs = some (a, rest) → rd (bs ++ ext) = some (a, rest ++ ext)

/-!
## The `Log` instruction branch of `process_instruction` (`lib.rs`)
-/

/-- The fields of `solana_program::AccountInfo` that the `Log` branch reads.
Modelled from the spec: `AccountInfo` is host-runtime data (§6); keys are
base58 strings. -/
structure AccountInfo where
  key : String
  is_signer : Bool
deriving DecidableEq

/-- The `solana_program::ProgramError` variants reachable from the `Log`
branch. `NotEnoughAccountKeys` is what `next_account_info` returns on an
exhausted iterator. -/
inductive ProgramError where
  | InvalidInstructionData
  | MissingRequiredSignature
  | NotEnoughAccountKeys
deriving DecidableEq

/-- `phoenix_log_authority::id()`: the fixed log-authority address
(`lib.rs` hardcodes the PDA for seeds `[b"log"]`). -/
def phoenix_log_authority_id : String := "7aDTsspkQNGKmrexAN7FLx9oxU3iPczSSvHNggyuqYkR"

/-- The `PhoenixInstruction::Log` branch of `process_instruction`
(`lib.rs` lines 78-86): take the first account with `next_account_info`
(which fails with `NotEnoughAccountKeys` on an empty list), then
`assert_with_msg(authority.is_signer, MissingRequiredSignature, ...)` and
return `Ok(())`.
Modelled from the spec where it leaves `src/`: the tag byte has already been
decoded to `PhoenixInstruction::Log` (§6 instruction surface), and
`next_account_info` / `assert_with_msg` behave as their call sites in
`lib.rs` require. -/
def process_log (accounts : List AccountInfo) : Except ProgramError Unit :=
  match accounts with
  | [] => .error .NotEnoughAccountKeys
  | authority :: _ =>
      if authority.is_signer then .ok () else .error .MissingRequiredSignature

/-- The `match_limit: Option<u64>` field of a packet; `PostOnly` declares no
such field. -/
def matchLimitField : OrderPacket → Option U64
  | .PostOnly .. => none
  | .Limit _ _ _ _ ml _ _ _ _ _ => ml
  | .ImmediateOrCancel _ _ _ _ _ _ _ ml _ _ _ _ => ml

/-- Build a `U64` from a numeral. -/
def mkU64 (n : Nat) : U64 := ⟨n % 2 ^ 64, Nat.mod_lt _ (by norm_num)⟩

/-- Build a `U128` from a numeral. -/
def mkU128 (n : Nat) : U128 := ⟨n % 2 ^ 128, Nat.mod_lt _ (by norm_num)⟩

/-- Concrete `Limit` packet whose trailing `last_valid_unix_timestamp_in_seconds`
and `fail_silently_on_insufficient_funds` encodings are omitted-able zeros. -/
def wPacketC1 : OrderPacket :=
  .Limit .Ask (Quantity.new 7) (Quantity.new 3) .CancelProvide (some (mkU64 9)) (mkU128 123)
    true (some (mkU64 5)) none false

/-- Concrete `ImmediateOrCancel` packet with zero base lots, non-zero quote
lots and a set match limit. -/
def wPacketC5 : OrderPacket :=
  .ImmediateOrCancel .Bid none (Quantity.new 0) (Quantity.new 3) (Quantity.new 0)
    (Quantity.new 3) .Abort (some (mkU64 7)) (mkU128 1) false none none

/-- Concrete `PostOnly` packet with neither expiry field set. -/
def wPacketC7 : OrderPacket :=
  .PostOnly .Bid (Quantity.new 1) (Quantity.new 1) (mkU128 0) true false none none false

/-- A non-log-authority account that has signed. -/
def wSigner : AccountInfo := ⟨"attacker", true⟩

/-- A first account that has not signed. -/
def wNonSigner : AccountInfo := ⟨"someone", false⟩

/-!
## Deserializer lemmas
-/

theorem u64_val_ext {a b : U64} (h : a.val = b.val) : a = b := by
  cases a
  cases b
  simp only at h
  subst h
  rfl

theorem u128_val_ext {a b : U128} (h : a.val = b.val) : a = b := by
  cases a
  cases b
  simp only at h
  subst h
  rfl



theorem natToLE_length : ∀ (n v : Nat), (natToLE n v).length = n := by
  intro n
  induction n with
  | zero => intro v; rfl
  | succ n ih => intro v; simp [natToLE, ih]

theorem leVal_natToLE (n : Nat) : ∀ v, leVal (natToLE n v) = v % 256 ^ n := by
  induction n with
  | zero => intro v; simp [natToLE, leVal, Nat.mod_one]
  | succ n ih =>
      intro v
      rw [show (256 : Nat) ^ (n + 1) = 256 * 256 ^ n from by ring, Nat.mod_mul]
      simp [natToLE, leVal, ih]

theorem readBytes_append : ∀ (l rest : List Nat), readBytes l.length (l ++ rest) = some (l, rest) := by
  intro l
  induction l with
  | nil => intro rest; rfl
  | cons b tl ih => intro rest; simp [readBytes, ih]

@[simp] theorem readSide_enc (s : Side) (rest : List Nat) :
    readSide (encSide s ++ rest) = some (s, rest) := by
  cases s <;> rfl

@[simp] theorem readStb_enc (b : SelfTradeBehavior) (rest : List Nat) :
    readStb (encStb b ++ rest) = some (b, rest) := by
  cases b <;> rfl

@[simp] theorem readBool_enc (b : Bool) (rest : List Nat) :
    readBool (encBool b ++ rest) = some (b, rest) := by
  cases b <;> rfl

@[simp] theorem readU64_enc (v : U64) (rest : List Nat) :
    readU64 (encU64 v ++ rest) = some (v, rest) := by
  have hb : readBytes 8 (natToLE 8 v.val ++ rest) = some (natToLE 8 v.val, rest) := by
    have h := readBytes_append (natToLE 8 v.val) rest
    rwa [natToLE_length] at h
  have hv : leVal (natToLE 8 v.val) % 2 ^ 64 = v.val := by
    rw [leVal_natToLE, show (256 : Nat) ^ 8 = 2 ^ 64 from by norm_num,
      Nat.mod_eq_of_lt (Nat.mod_lt _ (by norm_num)), Nat.mod_eq_of_lt v.isLt]
  unfold readU64 encU64
  rw [hb]
  exact congrArg (fun x => some (x, rest)) (u64_val_ext hv)

@[simp] theorem readU128_enc (v : U128) (rest : List Nat) :
    readU128 (encU128 v ++ rest) = some (v, rest) := by
  have hb : readBytes 16 (natToLE 16 v.val ++ rest) = some (natToLE 16 v.val, rest) := by
    have h := readBytes_append (natToLE 16 v.val) rest
    rwa [natToLE_length] at h
  have hv : leVal (natToLE 16 v.val) % 2 ^ 128 = v.val := by
    rw [leVal_natToLE, show (256 : Nat) ^ 16 = 2 ^ 128 from by norm_num,
      Nat.mod_eq_of_lt (Nat.mod_lt _ (by norm_num)), Nat.mod_eq_of_lt v.isLt]
  unfold readU128 encU128
  rw [hb]
  exact congrArg (fun x => some (x, rest)) (u128_val_ext hv)

@[simp] theorem readQty_enc {u : UnitTag} (q : Quantity u) (rest : List Nat) :
    readQty u (encQty q ++ rest) = some (q, rest) := by
  unfold readQty encQty
  rw [readU64_enc]

@[simp] theorem readOptU64_enc (o : Option U64) (rest : List Nat) :
    readOption readU64 (encOption encU64 o ++ rest) = some (o, rest) := by
  cases o with
  | none => rfl
  | some x => simp [encOption, readOption]

@[simp] theorem readOptQty_enc {u : UnitTag} (o : Option (Quantity u)) (rest : List Nat) :
    readOption (readQty u) (encOption encQty o ++ rest) = some (o, rest) := by
  cases o with
  | none => rfl
  | some x => simp [encOption, readOption]

/-- The deserializer round-trips on every serialized packet, leaving any
appended suffix unconsumed. -/
theorem parseOrderPacket_enc (p : OrderPacket) (rest : List Nat) :
    parseOrderPacket (encodeOrderPacket p ++ rest) = some (p, rest) := by
  cases p with
  | PostOnly s price nbl cid rpo uodf lvs lvt fs =>
      simp [encodeOrderPacket, parseOrderPacket, parsePostOnly, pBind, pPure, readByte,
        List.append_assoc]
  | Limit s price nbl stb ml cid uodf lvs lvt fs =>
      simp [encodeOrderPacket, parseOrderPacket, parseLimit, pBind, pPure, readByte,
        List.append_assoc]
  | ImmediateOrCancel s price nbl nql mbf mqf stb ml cid uodf lvs lvt =>
      simp [encodeOrderPacket, parseOrderPacket, parseIoc, pBind, pPure, readByte,
        List.append_assoc]


theorem extendOk_pPure {α : Type} (a : α) : ExtendOk (pPure a) := by
  intro bs ext b rest h
  simp [pPure] at h ⊢
  exact ⟨h.1, by rw [h.2]⟩

theorem extendOk_pFail {α : Type} : ExtendOk (pFail : Reader α) := by
  intro bs ext b rest h
  simp [pFail] at h

theorem extendOk_pBind {α β : Type} {rd : Reader α} {f : α → Reader β}
    (h1 : ExtendOk rd) (h2 : ∀ a, ExtendOk (f a)) : ExtendOk (pBind rd f) := by
  intro bs ext b rest h
  unfold pBind at h ⊢
  cases hr : rd bs with
  | none => rw [hr] at h; exact absurd h (by simp)
  | some ar =>
      obtain ⟨a, mid⟩ := ar
      rw [hr] at h
      rw [h1 bs ext a mid hr]
      exact h2 a mid ext b rest h

theorem extendOk_readByte : ExtendOk readByte := by
  intro bs ext a rest h
  cases bs with
  | nil => simp [readByte] at h
  | cons b tl => simp [readByte] at h ⊢; exact ⟨h.1, by rw [h.2]⟩

theorem extendOk_readBytes (n : Nat) : ExtendOk (readBytes n) := by
  induction n with
  | zero =>
      intro bs ext a rest h
      simp [readBytes] at h ⊢
      exact ⟨h.1, by rw [h.2]⟩
  | succ n ih =>
      intro bs ext a rest h
      cases bs with
      | nil => simp [readBytes] at h
      | cons b tl =>
          simp only [readBytes, List.cons_append, List.append_eq] at h ⊢
          cases hr : readBytes n tl with
          | none => rw [hr] at h; exact absurd h (by simp)
          | some lr =>
              obtain ⟨l, r⟩ := lr
              rw [hr] at h
              rw [ih tl ext l r hr]
              simp at h ⊢
              exact ⟨by rw [← h.1], by rw [h.2]⟩

theorem extendOk_readU64 : ExtendOk readU64 := by
  intro bs ext a rest h
  unfold readU64 at h ⊢
  cases hr : readBytes 8 bs with
  | none => rw [hr] at h; exact absurd h (by simp)
  | some lr =>
      obtain ⟨l, r⟩ := lr
      rw [hr] at h
      rw [extendOk_readBytes 8 bs ext l r hr]
      simp at h ⊢
      exact ⟨by rw [← h.1], by rw [h.2]⟩

theorem extendOk_readU128 : ExtendOk readU128 := by
  intro bs ext a rest h
  unfold readU128 at h ⊢
  cases hr : readBytes 16 bs with
  | none => rw [hr] at h; exact absurd h (by simp)
  | some lr =>
      obtain ⟨l, r⟩ := lr
      rw [hr] at h
      rw [extendOk_readBytes 16 bs ext l r hr]
      simp at h ⊢
      exact ⟨by rw [← h.1], by rw [h.2]⟩

theorem extendOk_readQty (u : UnitTag) : ExtendOk (readQty u) := by
  intro bs ext a rest h
  unfold readQty at h ⊢
  cases hr : readU64 bs with
  | none => rw [hr] at h; exact absurd h (by simp)
  | some vr =>
      obtain ⟨v, r⟩ := vr
      rw [hr] at h
      rw [extendOk_readU64 bs ext v r hr]
      simp at h ⊢
      exact ⟨by rw [← h.1], by rw [h.2]⟩

theorem extendOk_readBool : ExtendOk readBool := by
  intro bs ext a rest h
  cases bs with
  | nil => simp [readBool] at h
  | cons b tl =>
      rcases b with _ | _ | b <;> simp_all [readBool]

theorem extendOk_readSide : ExtendOk readSide := by
  intro bs ext a rest h
  cases bs with
  | nil => simp [readSide] at h
  | cons b tl =>
      rcases b with _ | _ | b <;> simp_all [readSide]

theorem extendOk_readStb : ExtendOk readStb := by
  intro bs ext a rest h
  cases bs with
  | nil => simp [readStb] at h
  | cons b tl =>
      rcases b with _ | _ | _ | b <;> simp_all [readStb]

theorem extendOk_readOption {α : Type} {rd : Reader α} (h : ExtendOk rd) :
    ExtendOk (readOption rd) := by
  intro bs ext a rest hr
  cases bs with
  | nil => simp [readOption] at hr
  | cons b tl =>
      rcases b with _ | _ | b
      · simp_all [readOption]
      · simp only [readOption, List.cons_append, List.append_eq] at hr ⊢
        cases hi : rd tl with
        | none => rw [hi] at hr; exact absurd hr (by simp)
        | some vr =>
            obtain ⟨v, r⟩ := vr
            rw [hi] at hr
            rw [h tl ext v r hi]
            simp at hr ⊢
            exact ⟨by rw [← hr.1], by rw [hr.2]⟩
      · simp [readOption] at hr

theorem extendOk_parsePostOnly : ExtendOk parsePostOnly := by
  unfold parsePostOnly
  apply extendOk_pBind extendOk_readSide; intro _
  apply extendOk_pBind (extendOk_readQty _); intro _
  apply extendOk_pBind (extendOk_readQty _); intro _
  apply extendOk_pBind extendOk_readU128; intro _
  apply extendOk_pBind extendOk_readBool; intro _
  apply extendOk_pBind extendOk_readBool; intro _
  apply extendOk_pBind (extendOk_readOption extendOk_readU64); intro _
  apply extendOk_pBind (extendOk_readOption extendOk_readU64); intro _
  apply extendOk_pBind extendOk_readBool; intro _
  exact extendOk_pPure _

theorem extendOk_parseLimit : ExtendOk parseLimit := by
  unfold parseLimit
  apply extendOk_pBind extendOk_readSide; intro _
  apply extendOk_pBind (extendOk_readQty _); intro _
  apply extendOk_pBind (extendOk_readQty _); intro _
  apply extendOk_pBind extendOk_readStb; intro _
  apply extendOk_pBind (extendOk_readOption extendOk_readU64); intro _
  apply extendOk_pBind extendOk_readU128; intro _
  apply extendOk_pBind extendOk_readBool; intro _
  apply extendOk_pBind (extendOk_readOption extendOk_readU64); intro _
  apply extendOk_pBind (extendOk_readOption extendOk_readU64); intro _
  apply extendOk_pBind extendOk_readBool; intro _
  exact extendOk_pPure _

theorem extendOk_parseIoc : ExtendOk parseIoc := by
  unfold parseIoc
  apply extendOk_pBind extendOk_readSide; intro _
  apply extendOk_pBind (extendOk_readOption (extendOk_readQty _)); intro _
  apply extendOk_pBind (extendOk_readQty _); intro _
  apply extendOk_pBind (extendOk_readQty _); intro _
  apply extendOk_pBind (extendOk_readQty _); intro _
  apply extendOk_pBind (extendOk_readQty _); intro _
  apply extendOk_pBind extendOk_readStb; intro _
  apply extendOk_pBind (extendOk_readOption extendOk_readU64); intro _
  apply extendOk_pBind extendOk_readU128; intro _
  apply extendOk_pBind extendOk_readBool; intro _
  apply extendOk_pBind (extendOk_readOption extendOk_readU64); intro _
  apply extendOk_pBind (extendOk_readOption extendOk_readU64); intro _
  exact extendOk_pPure _

theorem extendOk_parseOrderPacket : ExtendOk parseOrderPacket := by
  unfold parseOrderPacket
  apply extendOk_pBind extendOk_readByte
  intro tag
  rcases tag with _ | _ | _ | t
  · exact extendOk_parsePostOnly
  · exact extendOk_parseLimit
  · exact extendOk_parseIoc
  · exact extendOk_pFail

theorem try_from_slice_of_nil {bs : List Nat} {p : OrderPacket}
    (h : parseOrderPacket bs = some (p, [])) : try_from_slice bs = some p := by
  unfold try_from_slice
  rw [h]

theorem try_from_slice_of_leftover {bs : List Nat} {p : OrderPacket} {e : Nat} {tl : List Nat}
    (h : parseOrderPacket bs = some (p, e :: tl)) : try_from_slice bs = none := by
  unfold try_from_slice
  rw [h]

/-- A strict byte-prefix of a fully-consumed encoding never deserializes with
full consumption: the parser reads the same bytes regardless of what follows. -/
theorem try_from_slice_of_strict (ext : List Nat) (p : OrderPacket) {bs : List Nat}
    (hext : ext ≠ []) (h : parseOrderPacket (bs ++ ext) = some (p, [])) :
    try_from_slice bs = none := by
  unfold try_from_slice
  cases hq : parseOrderPacket bs with
  | none => rfl
  | some qr =>
      obtain ⟨q, rest⟩ := qr
      have := extendOk_parseOrderPacket bs ext q rest hq
      rw [h] at this
      simp at this
      exact absurd this.2 (by simp [hext])


theorem rep1 : List.replicate 1 (0 : Nat) = [0] := rfl

theorem rep2 : List.replicate 2 (0 : Nat) = [0, 0] := rfl

theorem rep3 : List.replicate 3 (0 : Nat) = [0, 0, 0] := rfl

/-- Every encoding splits as its core followed by the omitted-able zero
bytes. -/
theorem encode_eq_core (p : OrderPacket) :
    encodeOrderPacket p = encodeCore p ++ List.replicate (omittable p) 0 := by
  cases p with
  | PostOnly s price nbl cid rpo uodf lvs lvt fs =>
      rcases fs <;> rcases lvt <;> rcases lvs <;>
        simp [encodeOrderPacket, encodeCore, optRegionCore, optCount, omittable, encOption,
          encBool, rep1, rep2, rep3, List.append_assoc]
  | Limit s price nbl stb ml cid uodf lvs lvt fs =>
      rcases fs <;> rcases lvt <;> rcases lvs <;>
        simp [encodeOrderPacket, encodeCore, optRegionCore, optCount, omittable, encOption,
          encBool, rep1, rep2, rep3, List.append_assoc]
  | ImmediateOrCancel s price nbl nql mbf mqf stb ml cid uodf lvs lvt =>
      rcases lvt <;> rcases lvs <;>
        simp [encodeOrderPacket, encodeCore, iocOptCore, iocOptCount, omittable, encOption,
          encBool, rep1, rep2, rep3, List.append_assoc]

theorem omittable_le_three (p : OrderPacket) : omittable p ≤ 3 := by
  cases p with
  | PostOnly s price nbl cid rpo uodf lvs lvt fs =>
      rcases fs <;> rcases lvt <;> rcases lvs <;> simp [omittable, optCount]
  | Limit s price nbl stb ml cid uodf lvs lvt fs =>
      rcases fs <;> rcases lvt <;> rcases lvs <;> simp [omittable, optCount]
  | ImmediateOrCancel s price nbl nql mbf mqf stb ml cid uodf lvs lvt =>
      rcases lvt <;> rcases lvs <;> simp [omittable, iocOptCount]

theorem parseOrderPacket_enc_nil (p : OrderPacket) :
    parseOrderPacket (encodeOrderPacket p) = some (p, []) := by
  simpa using parseOrderPacket_enc p []

/-- Helper: the decoder succeeds immediately on a full encoding. -/
theorem decode_encode_eq (p : OrderPacket) :
    decode_order_packet (encodeOrderPacket p) = some p := by
  unfold decode_order_packet
  rw [try_from_slice_of_nil (parseOrderPacket_enc_nil p)]

theorem tfs_pad_none (j : Nat) (p : OrderPacket) {T : List Nat} (hj : j ≠ 0)
    (h : T = encodeOrderPacket p ++ List.replicate j 0) : try_from_slice T = none := by
  subst h
  cases j with
  | zero => exact absurd rfl hj
  | succ j =>
      exact try_from_slice_of_leftover
        (by rw [List.replicate_succ]; exact parseOrderPacket_enc p (0 :: List.replicate j 0))

theorem tfs_pad_some {T : List Nat} {p : OrderPacket} (h : T = encodeOrderPacket p) :
    try_from_slice T = some p := by
  subst h
  exact try_from_slice_of_nil (parseOrderPacket_enc_nil p)

/-- Helper: dropping `k ≤ omittable p` trailing zero bytes from a full
encoding still decodes to `p`, through the zero-padding retries. -/
theorem decode_truncated (p : OrderPacket) (k : Nat) (hk : k ≤ omittable p) :
    decode_order_packet
      (List.take ((encodeOrderPacket p).length - k) (encodeOrderPacket p)) = some p := by
  have hm3 := omittable_le_three p
  have hcore := encode_eq_core p
  have hTk : (encodeCore p ++ List.replicate (omittable p - k) 0) ++ List.replicate k 0
      = encodeOrderPacket p := by
    rw [hcore, List.append_assoc, ← List.replicate_add]
    congr 2
    omega
  have hTake : List.take ((encodeOrderPacket p).length - k) (encodeOrderPacket p)
      = encodeCore p ++ List.replicate (omittable p - k) 0 := by
    rw [← hTk]
    rw [List.length_append, List.length_replicate, Nat.add_sub_cancel]
    exact List.take_left _ _
  rw [hTake]
  have hk3 : k ≤ 3 := le_trans hk hm3
  interval_cases k
  · -- no bytes dropped: the first attempt succeeds
    have hT : encodeCore p ++ List.replicate (omittable p - 0) 0 = encodeOrderPacket p := by
      simpa using hTk
    rw [hT]
    exact decode_encode_eq p
  · -- one byte dropped: the raw and the +3, +2 padded attempts fail, +1 succeeds
    have h0 : try_from_slice (encodeCore p ++ List.replicate (omittable p - 1) 0) = none := by
      refine try_from_slice_of_strict [0] p (by simp) ?_
      rw [show (encodeCore p ++ List.replicate (omittable p - 1) 0) ++ [0]
          = encodeOrderPacket p from by simpa [rep1] using hTk]
      exact parseOrderPacket_enc_nil p
    have h3 : try_from_slice ((encodeCore p ++ List.replicate (omittable p - 1) 0) ++ [0, 0, 0])
        = none := by
      refine tfs_pad_none 2 p (by simp) ?_
      rw [← hTk, rep1, rep2]
      simp
    have h2 : try_from_slice ((encodeCore p ++ List.replicate (omittable p - 1) 0) ++ [0, 0])
        = none := by
      refine tfs_pad_none 1 p (by simp) ?_
      rw [← hTk, rep1]
      simp
    have h1 : try_from_slice ((encodeCore p ++ List.replicate (omittable p - 1) 0) ++ [0])
        = some p := by
      refine tfs_pad_some ?_
      simpa [rep1] using hTk
    unfold decode_order_packet
    simp only [h0, h3, h2, h1]
  · -- two bytes dropped: +2 padded attempt succeeds
    have h0 : try_from_slice (encodeCore p ++ List.replicate (omittable p - 2) 0) = none := by
      refine try_from_slice_of_strict [0, 0] p (by simp) ?_
      rw [show (encodeCore p ++ List.replicate (omittable p - 2) 0) ++ [0, 0]
          = encodeOrderPacket p from by simpa [rep2] using hTk]
      exact parseOrderPacket_enc_nil p
    have h3 : try_from_slice ((encodeCore p ++ List.replicate (omittable p - 2) 0) ++ [0, 0, 0])
        = none := by
      refine tfs_pad_none 1 p (by simp) ?_
      rw [← hTk, rep2, rep1]
      simp
    have h2 : try_from_slice ((encodeCore p ++ List.replicate (omittable p - 2) 0) ++ [0, 0])
        = some p := by
      refine tfs_pad_some ?_
      simpa [rep2] using hTk
    unfold decode_order_packet
    simp only [h0, h3, h2]
  · -- three bytes dropped: +3 padded attempt succeeds
    have h0 : try_from_slice (encodeCore p ++ List.replicate (omittable p - 3) 0) = none := by
      refine try_from_slice_of_strict [0, 0, 0] p (by simp) ?_
      rw [show (encodeCore p ++ List.replicate (omittable p - 3) 0) ++ [0, 0, 0]
          = encodeOrderPacket p from by simpa [rep3] using hTk]
      exact parseOrderPacket_enc_nil p
    have h3 : try_from_slice ((encodeCore p ++ List.replicate (omittable p - 3) 0) ++ [0, 0, 0])
        = some p := by
      refine tfs_pad_some ?_
      simpa [rep3] using hTk
    unfold decode_order_packet
    simp only [h0, h3]


/-!
## Claim theorems
-/

theorem quantity_eq_zero_iff {u : UnitTag} (q : Quantity u) :
    q = Quantity.ZERO ↔ q.inner.val = 0 := by
  constructor
  · intro h
    rw [h]
    rfl
  · intro h
    rcases q with ⟨⟨x, hx⟩⟩
    simp only at h
    subst h
    rfl

/-- C1: an input that encodes an `OrderPacket` with its `k` trailing zero
bytes standing for omitted optional fields (contiguous from the back of the
optional region, `k ≤ omittable p`) decodes, with those `k` bytes dropped, to
the same packet the full input decodes to — namely `some p`; the decoder
reaches it by appending three zero bytes and retrying, popping one byte per
attempt. -/
theorem claim_C1 (p : OrderPacket) (k : Nat) (hk : k ≤ omittable p) :
    decode_order_packet
        (List.take ((encodeOrderPacket p).length - k) (encodeOrderPacket p))
      = decode_order_packet (encodeOrderPacket p)
    ∧ decode_order_packet (encodeOrderPacket p) = some p := by
  refine ⟨?_, decode_encode_eq p⟩
  rw [decode_truncated p k hk, decode_encode_eq p]

/-- C1 witness: the concrete `Limit` packet `wPacketC1` omits its two
trailing optional fields, and dropping those two zero bytes decodes back to
it. -/
theorem claim_C1_witness :
    2 ≤ omittable wPacketC1
    ∧ (decode_order_packet
          (List.take ((encodeOrderPacket wPacketC1).length - 2)
            (encodeOrderPacket wPacketC1))
        = decode_order_packet (encodeOrderPacket wPacketC1)
      ∧ decode_order_packet (encodeOrderPacket wPacketC1) = some wPacketC1) :=
  ⟨by decide, claim_C1 wPacketC1 2 (by decide)⟩

/-- C2: serializing any `OrderPacket` and running `decode_order_packet` on
the resulting bytes yields the original packet. -/
theorem claim_C2 (p : OrderPacket) :
    decode_order_packet (encodeOrderPacket p) = some p :=
  decode_encode_eq p

/-- C3 counterexample: a `Log` invocation whose only account is a signer
other than the log authority succeeds, although the log-authority PDA has
not signed — the handler never compares the key. -/
theorem claim_C3_counterexample :
    process_log [wSigner] = .ok () ∧ wSigner.key ≠ phoenix_log_authority_id := by
  constructor
  · rfl
  · decide

/-- C3 (amended): the `Log` branch succeeds iff the first account passed is
a signer (whatever its key); a non-signing first account fails with
`MissingRequiredSignature`, and a missing first account fails with
`NotEnoughAccountKeys`. -/
theorem claim_C3 (a : AccountInfo) (rest : List AccountInfo) :
    (process_log (a :: rest) = .ok () ↔ a.is_signer = true)
    ∧ (a.is_signer = false → process_log (a :: rest) = .error .MissingRequiredSignature)
    ∧ process_log [] = .error .NotEnoughAccountKeys := by
  refine ⟨?_, ?_, rfl⟩
  · cases h : a.is_signer <;> simp [process_log, h]
  · intro h
    simp [process_log, h]

/-- C3 witness: the non-signing first account `wNonSigner` makes the `Log`
branch fail with `MissingRequiredSignature`. -/
theorem claim_C3_witness :
    process_log [wNonSigner] = .error .MissingRequiredSignature :=
  (claim_C3 wNonSigner []).2.1 rfl

/-- C4: `is_fok` holds exactly on `ImmediateOrCancel` packets whose non-zero
`num_base_lots` equals `min_base_lots_to_fill` or whose non-zero
`num_quote_lots` equals `min_quote_lots_to_fill`; `PostOnly` and `Limit`
packets are never FOK; and `is_take_only = is_ioc || is_fok`. -/
theorem claim_C4 :
    (∀ (s : Side) (pr : Ticks) (nbl : BaseLots) (cid : U128) (rpo uodf : Bool)
        (lvs lvt : Option U64) (fs : Bool),
      (OrderPacket.PostOnly s pr nbl cid rpo uodf lvs lvt fs).is_fok = false)
    ∧ (∀ (s : Side) (pr : Ticks) (nbl : BaseLots) (stb : SelfTradeBehavior)
        (ml : Option U64) (cid : U128) (uodf : Bool) (lvs lvt : Option U64) (fs : Bool),
      (OrderPacket.Limit s pr nbl stb ml cid uodf lvs lvt fs).is_fok = false)
    ∧ (∀ (s : Side) (pr : Option Ticks) (nbl : BaseLots) (nql : QuoteLots)
        (mbf : BaseLots) (mqf : QuoteLots) (stb : SelfTradeBehavior) (ml : Option U64)
        (cid : U128) (uodf : Bool) (lvs lvt : Option U64),
      ((OrderPacket.ImmediateOrCancel s pr nbl nql mbf mqf stb ml cid uodf lvs lvt).is_fok
          = true
        ↔ (0 < nbl.inner.val ∧ nbl = mbf) ∨ (0 < nql.inner.val ∧ nql = mqf)))
    ∧ (∀ p : OrderPacket, p.is_take_only = (p.is_ioc || p.is_fok)) := by
  refine ⟨fun _ _ _ _ _ _ _ _ _ => rfl, fun _ _ _ _ _ _ _ _ _ _ => rfl, ?_, fun _ => rfl⟩
  intro s pr nbl nql mbf mqf stb ml cid uodf lvs lvt
  simp [OrderPacket.is_fok, Bool.or_eq_true, Bool.and_eq_true, decide_eq_true_eq]

/-- C5: `base_lot_budget` is `num_base_lots` when positive and `BaseLots::MAX`
when zero; `quote_lot_budget` is `Some(num_quote_lots)` when positive and
`None` when zero; `match_limit` is the field's value when present and
`u64::MAX` when absent (`PostOnly` has no field, hence `u64::MAX`). -/
theorem claim_C5 (p : OrderPacket) :
    (0 < p.num_base_lots.inner.val → p.base_lot_budget = p.num_base_lots)
    ∧ (p.num_base_lots.inner.val = 0 → p.base_lot_budget = Quantity.MAX)
    ∧ (0 < p.num_quote_lots.inner.val → p.quote_lot_budget = some p.num_quote_lots)
    ∧ (p.num_quote_lots.inner.val = 0 → p.quote_lot_budget = none)
    ∧ (p.is_post_only = true → p.match_limit = 2 ^ 64 - 1)
    ∧ (∀ v : U64, matchLimitField p = some v → p.match_limit = v.val)
    ∧ (matchLimitField p = none → p.match_limit = 2 ^ 64 - 1) := by
  refine ⟨?_, ?_, ?_, ?_, ?_, ?_, ?_⟩
  · intro h
    have hne : ¬ p.num_base_lots = Quantity.ZERO := fun hc => by
      rw [quantity_eq_zero_iff] at hc
      omega
    simp [OrderPacket.base_lot_budget, hne]
  · intro h
    have heq : p.num_base_lots = Quantity.ZERO := (quantity_eq_zero_iff _).2 h
    simp [OrderPacket.base_lot_budget, heq]
  · intro h
    have hne : ¬ p.num_quote_lots = Quantity.ZERO := fun hc => by
      rw [quantity_eq_zero_iff] at hc
      omega
    simp [OrderPacket.quote_lot_budget, hne]
  · intro h
    have heq : p.num_quote_lots = Quantity.ZERO := (quantity_eq_zero_iff _).2 h
    simp [OrderPacket.quote_lot_budget, heq]
  · intro h
    cases p <;> simp_all [OrderPacket.is_post_only, OrderPacket.match_limit]
  · intro v hv
    cases p <;> simp_all [matchLimitField, OrderPacket.match_limit]
  · intro hn
    cases p <;> simp_all [matchLimitField, OrderPacket.match_limit]

/-- C5 witness: on the concrete IOC packet `wPacketC5` (zero base lots,
three quote lots, match limit 7) the three budget accessors take the claimed
branches. -/
theorem claim_C5_witness :
    (wPacketC5.num_base_lots.inner.val = 0 ∧ wPacketC5.base_lot_budget = Quantity.MAX)
    ∧ (0 < wPacketC5.num_quote_lots.inner.val
        ∧ wPacketC5.quote_lot_budget = some wPacketC5.num_quote_lots)
    ∧ (matchLimitField wPacketC5 = some (mkU64 7) ∧ wPacketC5.match_limit = (mkU64 7).val) :=
  ⟨⟨by decide, (claim_C5 wPacketC5).2.1 (by decide)⟩,
   ⟨by decide, (claim_C5 wPacketC5).2.2.1 (by decide)⟩,
   ⟨by decide, (claim_C5 wPacketC5).2.2.2.2.2.1 (mkU64 7) (by decide)⟩⟩

/-- C6: an `ImmediateOrCancel` packet with no price has effective limit
`Ticks::MAX` for a Bid and `Ticks::MIN` for an Ask. -/
theorem claim_C6 (s : Side) (nbl : BaseLots) (nql : QuoteLots) (mbf : BaseLots)
    (mqf : QuoteLots) (stb : SelfTradeBehavior) (ml : Option U64) (cid : U128)
    (uodf : Bool) (lvs lvt : Option U64) :
    (OrderPacket.ImmediateOrCancel s none nbl nql mbf mqf stb ml cid uodf
        lvs lvt).get_price_in_ticks
      = if s = Side.Bid then Quantity.MAX else Quantity.MIN := by
  cases s <;> rfl

/-- C7: `is_expired` holds iff `last_valid_slot` is set and strictly below
the current slot, or `last_valid_unix_timestamp_in_seconds` is set and
strictly below the current timestamp; with both unset the packet is never
expired. -/
theorem claim_C7 (p : OrderPacket) (current_slot current_ts : U64) :
    (p.is_expired current_slot current_ts = true
      ↔ (∃ s, p.get_last_valid_slot = some s ∧ s.val < current_slot.val)
        ∨ (∃ t, p.get_last_valid_unix_timestamp_in_seconds = some t
            ∧ t.val < current_ts.val))
    ∧ (p.get_last_valid_slot = none
        → p.get_last_valid_unix_timestamp_in_seconds = none
        → p.is_expired current_slot current_ts = false) := by
  constructor
  · unfold OrderPacket.is_expired
    rcases hs : p.get_last_valid_slot with _ | s <;>
      rcases ht : p.get_last_valid_unix_timestamp_in_seconds with _ | t <;>
        simp [hs, ht]
  · intro h1 h2
    unfold OrderPacket.is_expired
    simp [h1, h2]

/-- C7 witness: the concrete packet `wPacketC7` has neither expiry field set
and is not expired at slot 11, timestamp 12. -/
theorem claim_C7_witness :
    wPacketC7.is_expired (mkU64 11) (mkU64 12) = false :=
  (claim_C7 wPacketC7 (mkU64 11) (mkU64 12)).2 rfl rfl

/-- C8: same-unit addition, subtraction and multiplication wrap modulo
`2 ^ 64` (`saturating_sub` truncates), and every multiplication in the
`allow_multiply!` table equals the `u64` product modulo `2 ^ 64`. -/
theorem claim_C8 :
    (∀ (u : UnitTag) (a b : Quantity u),
        (Quantity.add a b).inner.val = (a.inner.val + b.inner.val) % 2 ^ 64
        ∧ ((Quantity.sub a b).inner.val : Int)
            = ((a.inner.val : Int) - (b.inner.val : Int)) % (2 : Int) ^ 64
        ∧ (Quantity.mul a b).inner.val = (a.inner.val * b.inner.val) % 2 ^ 64
        ∧ (Quantity.saturating_sub a b).inner.val = a.inner.val - b.inner.val)
    ∧ (∀ (u v w : UnitTag), AllowMultiply u v w → ∀ (a : Quantity u) (b : Quantity v),
        (Quantity.crossMul w a b).inner.val = (a.inner.val * b.inner.val) % 2 ^ 64) := by
  constructor
  · intro u a b
    have ha := a.inner.isLt
    have hb := b.inner.isLt
    refine ⟨rfl, ?_, rfl, rfl⟩
    simp only [Quantity.sub]
    have h64n : (2 : Nat) ^ 64 = 18446744073709551616 := by norm_num
    have h64i : (2 : Int) ^ 64 = 18446744073709551616 := by norm_num
    rw [h64n] at ha hb ⊢
    rw [h64i]
    omega
  · intro u v w _ a b
    rfl

/-- C8 witness: the wrap and table facts at concrete `BaseLots` operands and
at the `BaseUnits × BaseLotsPerBaseUnit → BaseLots` table entry. -/
theorem claim_C8_witness :
    ((Quantity.add (Quantity.new 3 : BaseLots) (Quantity.new 5)).inner.val
        = ((Quantity.new 3 : BaseLots).inner.val
            + (Quantity.new 5 : BaseLots).inner.val) % 2 ^ 64
      ∧ ((Quantity.sub (Quantity.new 3 : BaseLots) (Quantity.new 5)).inner.val : Int)
          = (((Quantity.new 3 : BaseLots).inner.val : Int)
              - ((Quantity.new 5 : BaseLots).inner.val : Int)) % (2 : Int) ^ 64
      ∧ (Quantity.mul (Quantity.new 3 : BaseLots) (Quantity.new 5)).inner.val
          = ((Quantity.new 3 : BaseLots).inner.val
              * (Quantity.new 5 : BaseLots).inner.val) % 2 ^ 64
      ∧ (Quantity.saturating_sub (Quantity.new 3 : BaseLots) (Quantity.new 5)).inner.val
          = (Quantity.new 3 : BaseLots).inner.val - (Quantity.new 5 : BaseLots).inner.val)
    ∧ (Quantity.crossMul .baseLots (Quantity.new 2 : Quantity .baseUnits)
          (Quantity.new 100 : Quantity .baseLotsPerBaseUnit)).inner.val
        = ((Quantity.new 2 : Quantity .baseUnits).inner.val
            * (Quantity.new 100 : Quantity .baseLotsPerBaseUnit).inner.val) % 2 ^ 64 :=
  ⟨claim_C8.1 .baseLots (Quantity.new 3) (Quantity.new 5),
   claim_C8.2 .baseUnits .baseLotsPerBaseUnit .baseLots
     AllowMultiply.baseUnits_baseLotsPerBaseUnit (Quantity.new 2) (Quantity.new 100)⟩

/-- C9: the `fail_silently_on_insufficient_funds` accessor returns the stored
flag for `PostOnly` and `Limit` and always `false` for `ImmediateOrCancel`. -/
theorem claim_C9 :
    (∀ (s : Side) (pr : Option Ticks) (nbl : BaseLots) (nql : QuoteLots)
        (mbf : BaseLots) (mqf : QuoteLots) (stb : SelfTradeBehavior) (ml : Option U64)
        (cid : U128) (uodf : Bool) (lvs lvt : Option U64),
      (OrderPacket.ImmediateOrCancel s pr nbl nql mbf mqf stb ml cid uodf
          lvs lvt).fail_silently_on_insufficient_funds = false)
    ∧ (∀ (s : Side) (pr : Ticks) (nbl : BaseLots) (cid : U128) (rpo uodf : Bool)
        (lvs lvt : Option U64) (fs : Bool),
      (OrderPacket.PostOnly s pr nbl cid rpo uodf lvs
          lvt fs).fail_silently_on_insufficient_funds = fs)
    ∧ (∀ (s : Side) (pr : Ticks) (nbl : BaseLots) (stb : SelfTradeBehavior)
        (ml : Option U64) (cid : U128) (uodf : Bool) (lvs lvt : Option U64) (fs : Bool),
      (OrderPacket.Limit s pr nbl stb ml cid uodf lvs
          lvt fs).fail_silently_on_insufficient_funds = fs) :=
  ⟨fun _ _ _ _ _ _ _ _ _ _ _ _ => rfl, fun _ _ _ _ _ _ _ _ _ => rfl,
   fun _ _ _ _ _ _ _ _ _ _ => rfl⟩

/-- C10: the `self_trade_behavior` accessor is undefined (a panic, modelled
`none`) exactly on `PostOnly` packets and returns the stored behavior on
`Limit` and `ImmediateOrCancel` packets. -/
theorem claim_C10 (p : OrderPacket) :
    (p.self_trade_behavior = none ↔ p.is_post_only = true)
    ∧ (∀ (s : Side) (pr : Ticks) (nbl : BaseLots) (stb : SelfTradeBehavior)
        (ml : Option U64) (cid : U128) (uodf : Bool) (lvs lvt : Option U64) (fs : Bool),
      (OrderPacket.Limit s pr nbl stb ml cid uodf lvs lvt fs).self_trade_behavior
        = some stb)
    ∧ (∀ (s : Side) (pr : Option Ticks) (nbl : BaseLots) (nql : QuoteLots)
        (mbf : BaseLots) (mqf : QuoteLots) (stb : SelfTradeBehavior) (ml : Option U64)
        (cid : U128) (uodf : Bool) (lvs lvt : Option U64),
      (OrderPacket.ImmediateOrCancel s pr nbl nql mbf mqf stb ml cid uodf
          lvs lvt).self_trade_behavior = some stb) := by
  refine ⟨?_, fun _ _ _ _ _ _ _ _ _ _ => rfl, fun _ _ _ _ _ _ _ _ _ _ _ _ => rfl⟩
  cases p <;> simp [OrderPacket.self_trade_behavior, OrderPacket.is_post_only]
